import Mathlib

/-!
Verification of the chapter-selection and work-scheduling core of `audiblez.py`
(an EPUB → audiobook converter), via a shallow embedding in Lean 4.

Modelling conventions:
* Python strings are `List Char`; `str.lower()` is modelled per character by
  `Char.toLower` (they agree on ASCII, which is all the patterns involve).
* The regex character class `\d` is modelled as `Char.isDigit` (ASCII decimal
  digits).
* An EPUB item (from `ebooklib`) is modelled by its two fields the code
  consults: `get_name()` and `get_type()`; `ebooklib.ITEM_DOCUMENT` is the
  constant 9.
* The filesystem is modelled as a predicate `onDisk : Nat → Bool` telling
  whether the (deterministic, index-keyed) destination file
  `<book>_chapter_<i>.wav` of chapter index `i` already exists: the book
  filename is fixed for a run, so the path is determined by `i` alone.
* Python's `pick` collaborator is a black box; the user's multi-selection is
  an explicit argument (the list of names it returned).
-/

namespace Audiblez

/-! ### Chapter classifier (`is_chapter`, audiblez.py lines 142-151) -/

/-- Matching of the regex fragment `\d{1,3}` at a fixed position of the
remaining input: it succeeds iff the first remaining character is a digit
(the upper bound 3 only limits how many characters a greedy match consumes,
never whether a match exists). -/
def matchDigits13 : List Char → Bool
  | [] => false
  | c :: _ => c.isDigit

/-- `re.search(tok + r"\d{1,3}", s)`: some position of `s` starts with the
literal token `tok` immediately followed by a digit run matching `\d{1,3}`. -/
def searchTokDigits (tok : List Char) : List Char → Bool
  | [] => false
  | c :: rest =>
      (tok.isPrefixOf (c :: rest) && matchDigits13 (List.drop tok.length (c :: rest)))
      || searchTokDigits tok rest

/-- Python's substring test `pat in s`. -/
def containsSub (pat : List Char) : List Char → Bool
  | [] => pat.isEmpty
  | c :: rest => pat.isPrefixOf (c :: rest) || containsSub pat rest

/-- An `ebooklib` item as far as the code reads it: `get_name()` and
`get_type()`. -/
structure Item where
  name : List Char
  itemType : Nat
deriving DecidableEq

/-- `ebooklib.ITEM_DOCUMENT`. -/
def ITEM_DOCUMENT : Nat := 9

/-- `is_chapter(c)` (lines 142-151): lowercase the item's name, then test
`re.search(r"part\d{1,3}")`, `re.search(r"ch\d{1,3}")`, and
`"chapter" in name` in turn.  The Python function returns `None` (falsy)
when nothing matches; that is modelled as `false`. -/
def is_chapter (c : Item) : Bool :=
  let name := c.name.map Char.toLower
  if searchTokDigits (String.toList "part") name then true
  else if searchTokDigits (String.toList "ch") name then true
  else if containsSub (String.toList "chapter") name then true
  else false

/-! ### Chapter selector (`find_chapters`, `pick_chapters`, lines 154-178) -/

/-- `find_chapters(book)` (lines 154-166): keep the document items classified
as chapters; if none is, fall back to all document items. -/
def find_chapters (book : List Item) : List Item :=
  let chapters := book.filter (fun c => c.itemType == ITEM_DOCUMENT && is_chapter c)
  if chapters.length = 0 then
    book.filter (fun c => c.itemType == ITEM_DOCUMENT)
  else chapters

/-- The ordered names of the document items, as offered to the picker
(line 170-171). -/
def documentNames (book : List Item) : List (List Char) :=
  (book.filter (fun c => c.itemType == ITEM_DOCUMENT)).map Item.name

/-- `pick_chapters(book)` (lines 169-178) after the interactive `pick` call:
given the names the user selected, return
`[c for c in book.get_items() if c.get_name() in selected_chapters_names]`.
Note the comprehension re-filters by name only, with no type check. -/
def pick_chapters (book : List Item) (sel : List (List Char)) : List Item :=
  book.filter (fun c => sel.contains c.name)

/-! ### Spec-side classifier predicate (for the refinement claim C2).
Written from the spec's words: "the lowercased name contains the substring
chapter, or a part token immediately followed by 1-3 digits, or a ch token
immediately followed by 1-3 digits". -/

/-- Spec wording: somewhere in `l`, the literal token `tok` occurs
immediately followed by 1 to 3 digit characters. -/
def specTokenDigits (tok l : List Char) : Prop :=
  ∃ pre ds suf, l = pre ++ tok ++ ds ++ suf ∧
    1 ≤ ds.length ∧ ds.length ≤ 3 ∧ ∀ c ∈ ds, c.isDigit = true

/-- Spec wording: the lowercased name contains "chapter", or "part" followed
by 1-3 digits, or "ch" followed by 1-3 digits. -/
def specIsChapter (name : List Char) : Prop :=
  (∃ s t, name.map Char.toLower = s ++ String.toList "chapter" ++ t)
  ∨ specTokenDigits (String.toList "part") (name.map Char.toLower)
  ∨ specTokenDigits (String.toList "ch") (name.map Char.toLower)

/-! ### Chapter scheduler (the loop of `main`, audiblez.py lines 62-79) -/

/-- The Python whitespace characters `str.strip()` removes (ASCII part of the
Unicode whitespace class: space, tab, newline, carriage return, vertical tab,
form feed). -/
def isPySpace (c : Char) : Bool :=
  c = ' ' || c = '\t' || c = '\n' || c = '\r' || c = Char.ofNat 11 || c = Char.ofNat 12

/-- `not text.strip()`: the text is empty or whitespace-only. -/
def stripIsEmpty (t : List Char) : Bool := t.all isPySpace

/-- `intro = f"{title} by {creator}"` (line 38). -/
def introString (title creator : List Char) : List Char :=
  title ++ String.toList " by " ++ creator

/-- One entry of `chapter_args`: the synthesis job the scheduler builds for a
chapter.  Only the fields the claims concern are kept: the 1-based chapter
index (which determines the destination path `<book>_chapter_<i>.wav`) and
the text handed to the TTS worker.  The constant fields `(kokoro, voice,
lang)` are configuration shared by every job. -/
structure Job where
  index : Nat
  text : List Char
deriving DecidableEq

/-- `actual_text = intro + ".\n\n" + text if i == 1 else text` (line 76). -/
def jobText (intro : List Char) (i : Nat) (text : List Char) : List Char :=
  if i = 1 then intro ++ String.toList ".\n\n" ++ text else text

/-- The scheduling loop of `main` (lines 65-79), started at index `i`:
for each text, skip it when blank; otherwise, when its destination already
exists print a "Skipping" message (recorded here as the second component,
the skipped indices); otherwise append a job.  Returns
(`chapter_args`, skipped indices), each in loop order. -/
def scheduleAux (intro : List Char) (onDisk : Nat → Bool) :
    Nat → List (List Char) → List Job × List Nat
  | _, [] => ([], [])
  | i, t :: ts =>
      if stripIsEmpty t then scheduleAux intro onDisk (i + 1) ts
      else if onDisk i then
        ((scheduleAux intro onDisk (i + 1) ts).1,
         i :: (scheduleAux intro onDisk (i + 1) ts).2)
      else
        (⟨i, jobText intro i t⟩ :: (scheduleAux intro onDisk (i + 1) ts).1,
         (scheduleAux intro onDisk (i + 1) ts).2)

/-- The scheduling loop of `main` over the whole `texts` list
(`enumerate(texts, start=1)`). -/
def schedule (intro : List Char) (texts : List (List Char)) (onDisk : Nat → Bool) :
    List Job × List Nat :=
  scheduleAux intro onDisk 1 texts

/-- The on-disk state after every job of a fully successful run has written
its destination file (`sf.write(chapter_filename, ...)`, line 115): a
chapter file exists iff it existed before or a job for that index ran. -/
def diskAfter (onDisk : Nat → Bool) (jobs : List Job) : Nat → Bool :=
  fun i => onDisk i || jobs.any (fun j => j.index == i)

/-- The 1-based positions (starting at `i`) of the texts that are not
empty/whitespace-only — the chapters for which an audio artifact is
expected. -/
def nonBlankFrom : Nat → List (List Char) → List Nat
  | _, [] => []
  | i, t :: ts =>
      if stripIsEmpty t then nonBlankFrom (i + 1) ts
      else i :: nonBlankFrom (i + 1) ts

/-- The 1-based positions of the non-blank texts. -/
def nonBlankIndices (texts : List (List Char)) : List Nat :=
  nonBlankFrom 1 texts

/-! ### Audiobook assembler (`create_m4b_ffmpeg_concat`, lines 194-207) -/

/-- The `wav_list.txt` manifest (lines 200-206): for `i in range(1,
chapter_count+1)`, the chapter file for index `i` is listed iff it exists on
disk.  Each line being determined by the index, the manifest is modelled as
the list of listed indices. -/
def wavList (chapter_count : Nat) (onDisk : Nat → Bool) : List Nat :=
  (List.range' 1 chapter_count).filter onDisk

/-! ### Control flow of `main` around the TTS and assembly phases
(lines 53-55, 82-103) -/

/-- The externally observable phases of `main` after text extraction. -/
inductive Event
  | warnFFmpegMissing
  | ttsRun (jobs : List Job)
  | ttsAllSkipped
  | assembleM4b (manifest : List Nat)
  | skipM4b
deriving DecidableEq

/-- The phases `main` goes through, in order (lines 53-103): warn when
ffmpeg is absent (lines 53-55); schedule and run the TTS jobs, or print
"All chapters already generated" when there are none (lines 82-95); then
either build the M4B from the wav files now on disk (lines 98-101) or print
"Skipping M4B creation" (line 103).  The function is total: the
ffmpeg-missing path prints and falls through, it raises nothing and exits
nowhere. -/
def mainEvents (hasFFmpeg : Bool) (intro : List Char) (texts : List (List Char))
    (onDisk : Nat → Bool) : List Event :=
  let warn := if hasFFmpeg then [] else [Event.warnFFmpegMissing]
  let jobs := (schedule intro texts onDisk).1
  let tts := if jobs.length ≠ 0 then [Event.ttsRun jobs] else [Event.ttsAllSkipped]
  let fin :=
    if hasFFmpeg then
      [Event.assembleM4b (wavList texts.length (diskAfter onDisk jobs))]
    else [Event.skipM4b]
  warn ++ tts ++ fin

/-! ### Per-job result collection (lines 82-93) -/

/-- What `future.result()` yields for one job: the worker's log message, or
the exception the worker raised. -/
inductive JobOutcome
  | ok (msg : List Char)
  | err (e : List Char)
deriving DecidableEq

/-- What the collection loop prints for one future. -/
inductive Report
  | success (msg : List Char)
  | failure (e : List Char)
deriving DecidableEq

/-- The result-collection loop (lines 87-93): `as_completed` yields every
submitted future, in completion order; for each, `future.result()` is read
inside a `try`, and an exception is caught at that per-job boundary and
printed as "Error processing a chapter" — the loop then continues with the
remaining futures. -/
def collectResults (outcome : Job → JobOutcome) (completed : List Job) : List Report :=
  completed.map fun j =>
    match outcome j with
    | JobOutcome.ok m => Report.success m
    | JobOutcome.err e => Report.failure e

/-! ### Concrete instances used to witness the theorems with hypotheses -/

/-- A two-item book with one clearly-non-chapter document and one stylesheet
(`get_type() = 1`, i.e. not `ITEM_DOCUMENT`): no document item is classified
as a chapter. -/
def bookNoChapters : List Item :=
  [⟨String.toList "cover.xhtml", ITEM_DOCUMENT⟩, ⟨String.toList "style.css", 1⟩]

/-- A non-document item (an image, `get_type() = 1`) that shares its name
with a document item. -/
def duplicateNameItem : Item := ⟨String.toList "ch1.html", 1⟩

/-- A book holding a document item and a non-document item with the same
name. -/
def bookDupName : List Item :=
  [⟨String.toList "ch1.html", ITEM_DOCUMENT⟩, duplicateNameItem]

/-- A selection consisting of the shared name. -/
def selDupName : List (List Char) := [String.toList "ch1.html"]

/-- Two submitted jobs. -/
def jobsTwo : List Job := [⟨1, String.toList "a"⟩, ⟨2, String.toList "b"⟩]

/-- The same two jobs in the completion order `as_completed` happened to
yield. -/
def completedTwo : List Job := [⟨2, String.toList "b"⟩, ⟨1, String.toList "a"⟩]

/-- An outcome where the worker for chapter 1 raised and the worker for
chapter 2 returned its log message. -/
def outcomeOneFails : Job → JobOutcome := fun j =>
  if j.index = 1 then JobOutcome.err (String.toList "boom")
  else JobOutcome.ok (String.toList "done")

/-! ### Helper lemmas -/

/-- A `contains` test does not depend on the order of the list searched:
reversing the selection list changes nothing. -/
theorem contains_reverse_eq (sel : List (List Char)) (a : List Char) :
    sel.reverse.contains a = sel.contains a := by
  have h1 : sel.contains a = true ↔ a ∈ sel := List.elem_iff
  have h2 : sel.reverse.contains a = true ↔ a ∈ sel.reverse := List.elem_iff
  cases hb : sel.contains a <;> cases hb' : sel.reverse.contains a <;>
    simp_all [List.mem_reverse]

/-! ### C5: both selection modes preserve book order -/

/-- Claim C5: In both selection modes the returned chapters are a subsequence of
the book's item list in original manifest order: `find_chapters` and
`pick_chapters` are filters of `book.get_items()`, and the picker's
selection order is not authoritative (a reordered selection list yields the
same chapters). -/
theorem find_and_pick_preserve_book_order (book : List Item) (sel : List (List Char)) :
    (find_chapters book).Sublist book
    ∧ (pick_chapters book sel).Sublist book
    ∧ pick_chapters book sel = pick_chapters book sel.reverse := by
  refine ⟨?_, List.filter_sublist book, ?_⟩
  · unfold find_chapters
    dsimp only
    split
    · exact List.filter_sublist book
    · exact List.filter_sublist book
  · unfold pick_chapters
    exact List.filter_congr fun x _ => (contains_reverse_eq sel x.name).symm

/-! ### C6: automatic selection falls back to all document items -/

/-- Claim C6: For every book in which no document-type item is classified as a
chapter, `find_chapters` returns exactly the full ordered list of
document-type items (the fallback branch at lines 162-165). -/
theorem find_chapters_fallback (book : List Item)
    (h : ∀ c ∈ book, c.itemType = ITEM_DOCUMENT → is_chapter c = false) :
    find_chapters book = book.filter (fun c => c.itemType == ITEM_DOCUMENT) := by
  unfold find_chapters
  dsimp only
  have hnil : book.filter (fun c => c.itemType == ITEM_DOCUMENT && is_chapter c) = [] := by
    rw [List.filter_eq_nil_iff]
    intro c hc
    simp only [Bool.and_eq_true, beq_iff_eq, not_and]
    intro hty
    simp [h c hc hty]
  rw [hnil]
  simp

/-- Witness for C6 at a concrete book: a cover page and a stylesheet, no
chapter among the documents, so the fallback returns the document list. -/
theorem find_chapters_fallback_witness :
    find_chapters bookNoChapters
      = bookNoChapters.filter (fun c => c.itemType == ITEM_DOCUMENT) :=
  find_chapters_fallback bookNoChapters (by decide)

/-! ### C10: manual selection re-filters by name only -/

/-- Claim C10: `pick_chapters` re-filters `book.get_items()` by name membership
alone, with no `get_type()` check: any item of the book whose name was
selected is returned, even a non-document item whose name happens to equal
the name of a selected document item (only document names having been
offered to the picker). -/
theorem pick_chapters_ignores_item_type (book : List Item) (sel : List (List Char))
    (item : Item) (hmem : item ∈ book) (hty : item.itemType ≠ ITEM_DOCUMENT)
    (hoffered : ∀ n ∈ sel, n ∈ documentNames book)
    (hsel : sel.contains item.name = true) :
    item ∈ pick_chapters book sel := by
  unfold pick_chapters
  exact List.mem_filter.mpr ⟨hmem, hsel⟩

/-- Witness for C10: a book with a document `ch1.html` and an image also
named `ch1.html`; selecting the (document) name drags the image in too. -/
theorem pick_chapters_ignores_item_type_witness :
    duplicateNameItem ∈ pick_chapters bookDupName selDupName :=
  pick_chapters_ignores_item_type bookDupName selDupName duplicateNameItem
    (by decide) (by decide) (by decide) (by decide)

/-! ### C7: the assembly manifest -/

/-- Claim C7: For every total chapter count `N` and on-disk state, the `wav_list`
manifest lists exactly the chapter files for indices `1..N` that exist on
disk, in strictly ascending index order.  The manifest is a function of the
disk state alone, so the order in which workers completed cannot influence
it. -/
theorem wavList_exact_and_sorted (N : Nat) (onDisk : Nat → Bool) :
    (∀ i, i ∈ wavList N onDisk ↔ (1 ≤ i ∧ i ≤ N ∧ onDisk i = true))
    ∧ (wavList N onDisk).Pairwise (· < ·) := by
  constructor
  · intro i
    unfold wavList
    rw [List.mem_filter, List.mem_range'_1]
    constructor
    · rintro ⟨⟨h1, h2⟩, h3⟩
      exact ⟨h1, by omega, h3⟩
    · rintro ⟨h1, h2, h3⟩
      exact ⟨⟨h1, by omega⟩, h3⟩
  · exact List.Pairwise.sublist (List.filter_sublist _) (List.pairwise_lt_range' 1 N)

/-! ### C9: per-job failures are isolated -/

/-- Claim C9: The collection loop over `as_completed(futures)` settles every
submitted job, whatever completion order the pool produced: the report list
has one entry per job, a successful job's message is reported even when
other jobs failed, and a failed job's exception is caught at the per-job
boundary and reported individually with its cause — never aborting the
loop. -/
theorem job_failures_are_isolated (outcome : Job → JobOutcome)
    (jobs completed : List Job) (hperm : completed.Perm jobs) :
    (collectResults outcome completed).length = jobs.length
    ∧ (∀ j m, j ∈ jobs → outcome j = JobOutcome.ok m →
        Report.success m ∈ collectResults outcome completed)
    ∧ (∀ j e, j ∈ jobs → outcome j = JobOutcome.err e →
        Report.failure e ∈ collectResults outcome completed) := by
  refine ⟨?_, ?_, ?_⟩
  · unfold collectResults
    rw [List.length_map]
    exact hperm.length_eq
  · intro j m hj ho
    unfold collectResults
    exact List.mem_map.mpr ⟨j, hperm.mem_iff.mpr hj, by rw [ho]⟩
  · intro j e hj ho
    unfold collectResults
    exact List.mem_map.mpr ⟨j, hperm.mem_iff.mpr hj, by rw [ho]⟩

/-- Witness for C9: two jobs, worker 1 raises, worker 2 finishes first;
both still get exactly one report and the success is reported despite the
sibling failure. -/
theorem job_failures_are_isolated_witness :
    (collectResults outcomeOneFails completedTwo).length = jobsTwo.length
    ∧ Report.success (String.toList "done") ∈ collectResults outcomeOneFails completedTwo
    ∧ Report.failure (String.toList "boom") ∈ collectResults outcomeOneFails completedTwo := by
  have h := job_failures_are_isolated outcomeOneFails jobsTwo completedTwo (by decide)
  exact ⟨h.1, h.2.1 ⟨2, String.toList "b"⟩ _ (by decide) (by decide),
    h.2.2 ⟨1, String.toList "a"⟩ _ (by decide) (by decide)⟩

/-- The indices of the jobs the scheduling loop builds from start index `s`
are exactly the positions of the non-blank texts whose destination file does
not exist yet, in order. -/
theorem scheduleAux_fst_map_index (intro : List Char) (onDisk : Nat → Bool) :
    ∀ (s : Nat) (texts : List (List Char)),
      ((scheduleAux intro onDisk s texts).1.map Job.index)
        = (nonBlankFrom s texts).filter (fun i => !onDisk i) := by
  intro s texts
  induction texts generalizing s with
  | nil => simp [scheduleAux, nonBlankFrom]
  | cons t ts ih =>
    by_cases hb : stripIsEmpty t
    · simp [scheduleAux, nonBlankFrom, hb, ih]
    · by_cases hd : onDisk s
      · simp [scheduleAux, nonBlankFrom, hb, hd, ih, List.filter_cons]
      · simp [scheduleAux, nonBlankFrom, hb, hd, ih, List.filter_cons]

/-- The indices the scheduling loop reports as "already exists, skipping"
are exactly the positions of the non-blank texts whose destination file
exists. -/
theorem scheduleAux_snd (intro : List Char) (onDisk : Nat → Bool) :
    ∀ (s : Nat) (texts : List (List Char)),
      (scheduleAux intro onDisk s texts).2 = (nonBlankFrom s texts).filter onDisk := by
  intro s texts
  induction texts generalizing s with
  | nil => simp [scheduleAux, nonBlankFrom]
  | cons t ts ih =>
    by_cases hb : stripIsEmpty t
    · simp [scheduleAux, nonBlankFrom, hb, ih]
    · by_cases hd : onDisk s
      · simp [scheduleAux, nonBlankFrom, hb, hd, ih, List.filter_cons]
      · simp [scheduleAux, nonBlankFrom, hb, hd, ih, List.filter_cons]

/-- Anatomy of a scheduled job: its index lies in the range of the loop, its
source text is non-blank, its destination did not exist, and its text is the
source text with the intro prepended exactly when the index is 1. -/
theorem scheduleAux_mem (intro : List Char) (onDisk : Nat → Bool) :
    ∀ (s : Nat) (texts : List (List Char)) (j : Job),
      j ∈ (scheduleAux intro onDisk s texts).1 →
      s ≤ j.index ∧ j.index - s < texts.length
      ∧ stripIsEmpty (texts.getD (j.index - s) []) = false
      ∧ onDisk j.index = false
      ∧ j.text = jobText intro j.index (texts.getD (j.index - s) []) := by
  intro s texts
  induction texts generalizing s with
  | nil => intro j h; simp [scheduleAux] at h
  | cons t ts ih =>
    intro j h
    by_cases hb : stripIsEmpty t
    · rw [scheduleAux, if_pos hb] at h
      obtain ⟨h1, h2, h3, h4, h5⟩ := ih (s + 1) j h
      have hix : j.index - s = (j.index - (s + 1)) + 1 := by omega
      refine ⟨by omega, by simp; omega, ?_, h4, ?_⟩
      · rw [hix, List.getD_cons_succ]; exact h3
      · rw [hix, List.getD_cons_succ]; exact h5
    · by_cases hd : onDisk s
      · rw [scheduleAux, if_neg hb, if_pos hd] at h
        simp only at h
        obtain ⟨h1, h2, h3, h4, h5⟩ := ih (s + 1) j h
        have hix : j.index - s = (j.index - (s + 1)) + 1 := by omega
        refine ⟨by omega, by simp; omega, ?_, h4, ?_⟩
        · rw [hix, List.getD_cons_succ]; exact h3
        · rw [hix, List.getD_cons_succ]; exact h5
      · rw [scheduleAux, if_neg hb, if_neg hd] at h
        simp only [List.mem_cons] at h
        cases h with
        | inl he =>
          subst he
          refine ⟨le_refl s, by simp, ?_, ?_, ?_⟩
          · simp [hb]
          · simpa using hd
          · simp
        | inr h =>
          obtain ⟨h1, h2, h3, h4, h5⟩ := ih (s + 1) j h
          have hix : j.index - s = (j.index - (s + 1)) + 1 := by omega
          refine ⟨by omega, by simp; omega, ?_, h4, ?_⟩
          · rw [hix, List.getD_cons_succ]; exact h3
          · rw [hix, List.getD_cons_succ]; exact h5

/-- After a fully successful run, the destination file of every non-blank
chapter exists: it either existed before or its job just wrote it. -/
theorem diskAfter_covers (intro : List Char) (texts : List (List Char)) (onDisk : Nat → Bool) :
    ∀ i ∈ nonBlankIndices texts,
      diskAfter onDisk (schedule intro texts onDisk).1 i = true := by
  intro i hi
  unfold diskAfter
  by_cases hd : onDisk i
  · simp [hd]
  · have hmem : i ∈ ((schedule intro texts onDisk).1.map Job.index) := by
      rw [schedule, scheduleAux_fst_map_index]
      exact List.mem_filter.mpr ⟨hi, by simp [hd]⟩
    obtain ⟨j, hj, hji⟩ := List.mem_map.mp hmem
    simp only [Bool.or_eq_true, List.any_eq_true]
    right
    exact ⟨j, hj, by simp [hji]⟩

/-- Claim C3: a job is only created when its destination file does not
already exist, so a second run of the scheduler over the output directory
left by a fully successful first run creates zero jobs and reports every
non-blank chapter as skipped. -/
theorem scheduler_idempotent (intro : List Char) (texts : List (List Char)) (onDisk : Nat → Bool) :
    ((schedule intro texts onDisk).1.all fun j => !onDisk j.index) = true
    ∧ (schedule intro texts
        (diskAfter onDisk (schedule intro texts onDisk).1)).1 = []
    ∧ (schedule intro texts
        (diskAfter onDisk (schedule intro texts onDisk).1)).2 = nonBlankIndices texts := by
  refine ⟨?_, ?_, ?_⟩
  · rw [List.all_eq_true]
    intro j hj
    have h := (scheduleAux_mem intro onDisk 1 texts j hj).2.2.2.1
    simp [h]
  · have hmap : ((schedule intro texts (diskAfter onDisk (schedule intro texts onDisk).1)).1.map Job.index) = [] := by
      rw [schedule, scheduleAux_fst_map_index]
      rw [List.filter_eq_nil_iff]
      intro i hi
      have := diskAfter_covers intro texts onDisk i hi
      simp [this]
    exact List.map_eq_nil_iff.mp hmap
  · unfold nonBlankIndices
    rw [schedule, scheduleAux_snd, List.filter_eq_self]
    intro i hi
    exact diskAfter_covers intro texts onDisk i hi

/-- The `wav_list` manifest only depends on the disk state pointwise. -/
theorem wavList_congr (N : Nat) (d1 d2 : Nat → Bool) (h : ∀ i, d1 i = d2 i) :
    wavList N d1 = wavList N d2 :=
  List.filter_congr fun x _ => h x

/-- Starting from an empty output directory, a chapter file exists after
the run iff some job had that index. -/
theorem diskAfter_false_eq (jobs : List Job) (i : Nat) :
    diskAfter (fun _ => false) jobs i = (jobs.map Job.index).any (fun k => k == i) := by
  unfold diskAfter
  simp only [Bool.false_or]
  rw [Bool.eq_iff_iff]
  simp only [List.any_eq_true, List.mem_map]
  constructor
  · rintro ⟨j, hj, hji⟩
    exact ⟨j.index, ⟨j, hj, rfl⟩, hji⟩
  · rintro ⟨k, ⟨j, hj, rfl⟩, hk⟩
    exact ⟨j, hj, hk⟩

/-- Claim C4: chapters with empty/whitespace-only text produce no
synthesis job and no artifact, and the remaining chapters keep their
original 1-based positions in the destination filenames: on a fresh output
directory the scheduled indices are exactly the non-blank positions, and the
concrete 3-chapter book whose chapter 2 is empty yields jobs (hence
artifacts, hence manifest entries) exactly for indices 1 and 3. -/
theorem empty_chapters_skipped_indices_kept (intro : List Char) (texts : List (List Char)) :
    ((schedule intro texts (fun _ => false)).1.map Job.index = nonBlankIndices texts)
    ∧ (schedule intro [['a'], [], ['c']] (fun _ => false)).1.map Job.index = [1, 3]
    ∧ wavList 3 (diskAfter (fun _ => false)
        (schedule intro [['a'], [], ['c']] (fun _ => false)).1) = [1, 3] := by
  have hgen : ∀ ts : List (List Char),
      (schedule intro ts (fun _ => false)).1.map Job.index = nonBlankIndices ts := by
    intro ts
    rw [schedule, scheduleAux_fst_map_index]
    unfold nonBlankIndices
    exact List.filter_eq_self.mpr fun a _ => rfl
  have hconc : (schedule intro [['a'], [], ['c']] (fun _ => false)).1.map Job.index = [1, 3] := by
    rw [hgen]
    decide
  refine ⟨hgen texts, hconc, ?_⟩
  calc wavList 3 (diskAfter (fun _ => false) (schedule intro [['a'], [], ['c']] (fun _ => false)).1)
      = wavList 3 (fun i => (((schedule intro [['a'], [], ['c']] (fun _ => false)).1.map Job.index).any (fun k => k == i))) :=
        wavList_congr 3 _ _ (fun i => diskAfter_false_eq _ i)
    _ = wavList 3 (fun i => (([1, 3] : List Nat).any (fun k => k == i))) := by rw [hconc]
    _ = [1, 3] := by decide

/-- Claim C1, counterexample: with chapter 1 blank and chapter 2 the first
non-empty chapter, the only job built is for index 2 and its text is the
chapter text unchanged — it does not carry the book-title-and-author intro,
contrary to the claim that the first non-empty chapter's job does. -/
theorem intro_skips_first_nonempty_counterexample :
    (schedule (introString (String.toList "T") (String.toList "A"))
        [[' '], ['h', 'i']] (fun _ => false)).1
      = [⟨2, ['h', 'i']⟩]
    ∧ ((introString (String.toList "T") (String.toList "A")).isPrefixOf
        ['h', 'i']) = false := by
  decide

/-- Claim C1, amended: the intro is tied to chapter index 1, not to the
first non-empty chapter — a job for index 1 (created only when chapter 1's
text is non-blank and its file absent) carries `intro + ".\n\n"` prepended,
and the job of every other index carries its chapter text unchanged. -/
theorem intro_only_for_index_one (intro : List Char) (texts : List (List Char)) (onDisk : Nat → Bool)
    (j : Job) (hj : j ∈ (schedule intro texts onDisk).1) :
    j.text = if j.index = 1 then intro ++ String.toList ".\n\n" ++ texts.getD 0 []
             else texts.getD (j.index - 1) [] := by
  obtain ⟨h1, h2, h3, h4, h5⟩ := scheduleAux_mem intro onDisk 1 texts j hj
  rw [h5]
  unfold jobText
  split
  · rename_i hi
    rw [hi]
  · rfl

/-- Witness for the amended C1: the job for index 2 in the counterexample
run carries its text unchanged. -/
theorem intro_only_for_index_one_witness :
    (⟨2, ['h', 'i']⟩ : Job).text
      = if (⟨2, ['h', 'i']⟩ : Job).index = 1 then
          String.toList "T" ++ String.toList ".\n\n" ++ [[' '], ['h', 'i']].getD 0 []
        else [[' '], ['h', 'i']].getD ((⟨2, ['h', 'i']⟩ : Job).index - 1) [] :=
  intro_only_for_index_one (String.toList "T") [[' '], ['h', 'i']] (fun _ => false) ⟨2, ['h', 'i']⟩ (by decide)

/-- Claim C8: when ffmpeg is absent the assembly phase never runs — no
M4B-creation step appears in the trace of `main` — while the run still
completes (the trace ends with the informational "Skipping M4B creation"
message), the missing tool having been reported as a printed warning up
front, and the TTS phase (whose artifacts remain as the deliverable) still
takes place. -/
theorem ffmpeg_missing_skips_assembly (intro : List Char) (texts : List (List Char)) (onDisk : Nat → Bool) :
    (∀ m, Event.assembleM4b m ∉ mainEvents false intro texts onDisk)
    ∧ Event.warnFFmpegMissing ∈ mainEvents false intro texts onDisk
    ∧ (mainEvents false intro texts onDisk).getLast? = some Event.skipM4b
    ∧ (Event.ttsRun (schedule intro texts onDisk).1 ∈ mainEvents false intro texts onDisk
       ∨ Event.ttsAllSkipped ∈ mainEvents false intro texts onDisk) := by
  unfold mainEvents
  by_cases h : (schedule intro texts onDisk).1.length ≠ 0
  · simp [h]
  · simp [h]

/-- Soundness and completeness of the substring test: `pat in s` holds iff
`s` splits as `s1 ++ pat ++ s2`. -/
theorem containsSub_iff (pat l : List Char) :
    containsSub pat l = true ↔ ∃ s t, l = s ++ pat ++ t := by
  induction l with
  | nil =>
    unfold containsSub
    rw [List.isEmpty_iff]
    constructor
    · rintro rfl
      exact ⟨[], [], rfl⟩
    · rintro ⟨s, t, hst⟩
      have := hst.symm
      simp only [List.append_assoc, List.append_eq_nil] at this
      exact this.2.1
  | cons c rest ih =>
    unfold containsSub
    rw [Bool.or_eq_true, ih, List.isPrefixOf_iff_prefix]
    constructor
    · rintro (h | ⟨s, t, rfl⟩)
      · obtain ⟨t, ht⟩ := h
        exact ⟨[], t, by simp [ht]⟩
      · exact ⟨c :: s, t, by simp⟩
    · rintro ⟨s, t, hst⟩
      cases s with
      | nil =>
        left
        exact ⟨t, by simpa using hst.symm⟩
      | cons a s' =>
        right
        obtain ⟨rfl, hr⟩ : a = c ∧ s' ++ (pat ++ t) = rest := by
          simpa using hst.symm
        exact ⟨s', t, by simp [hr.symm]⟩

/-- Soundness and completeness of the regex search: `re.search` of the
token-then-digits pattern succeeds iff the string splits around the token
with a digit-leading remainder. -/
theorem searchTokDigits_iff (tok l : List Char) :
    searchTokDigits tok l = true ↔
      ∃ s t, l = s ++ tok ++ t ∧ matchDigits13 t = true := by
  induction l with
  | nil =>
    constructor
    · intro h
      simp [searchTokDigits] at h
    · rintro ⟨s, t, hst, hm⟩
      have ht : t = [] := by
        have h0 := hst.symm
        simp only [List.append_assoc, List.append_eq_nil] at h0
        exact h0.2.2
      rw [ht] at hm
      simp [matchDigits13] at hm
  | cons c rest ih =>
    unfold searchTokDigits
    rw [Bool.or_eq_true, Bool.and_eq_true, ih, List.isPrefixOf_iff_prefix]
    constructor
    · rintro (⟨hpre, hm⟩ | ⟨s, t, rfl, hm⟩)
      · obtain ⟨t, ht⟩ := hpre
        refine ⟨[], t, by simp [ht], ?_⟩
        rw [← ht, List.drop_left] at hm
        exact hm
      · exact ⟨c :: s, t, by simp, hm⟩
    · rintro ⟨s, t, hst, hm⟩
      cases s with
      | nil =>
        left
        have hten : tok ++ t = c :: rest := by simpa using hst.symm
        constructor
        · exact ⟨t, hten⟩
        · rw [← hten, List.drop_left]
          exact hm
      | cons a s' =>
        right
        obtain ⟨rfl, hr⟩ : a = c ∧ s' ++ (tok ++ t) = rest := by
          simpa using hst.symm
        exact ⟨s', t, by simp [hr.symm], hm⟩

/-- `\d{1,3}` matches at a position iff the remainder starts with a block
of 1 to 3 digit characters. -/
theorem matchDigits13_iff (t : List Char) :
    matchDigits13 t = true ↔
      ∃ ds r, t = ds ++ r ∧ 1 ≤ ds.length ∧ ds.length ≤ 3
        ∧ ∀ c ∈ ds, c.isDigit = true := by
  constructor
  · cases t with
    | nil => intro h; simp [matchDigits13] at h
    | cons c r =>
      intro h
      refine ⟨[c], r, rfl, by simp, by simp, ?_⟩
      intro x hx
      rw [List.mem_singleton] at hx
      subst hx
      simpa [matchDigits13] using h
  · rintro ⟨ds, r, rfl, h1, h2, h3⟩
    cases ds with
    | nil => simp at h1
    | cons d ds' =>
      simp only [List.cons_append, matchDigits13]
      exact h3 d (by simp)

/-- The spec's "token immediately followed by 1-3 digits" is equivalent to
the regex-search characterisation. -/
theorem specTokenDigits_iff (tok l : List Char) :
    specTokenDigits tok l ↔
      ∃ s t, l = s ++ tok ++ t ∧ matchDigits13 t = true := by
  unfold specTokenDigits
  constructor
  · rintro ⟨pre, ds, suf, rfl, h1, h2, h3⟩
    refine ⟨pre, ds ++ suf, by simp, ?_⟩
    rw [matchDigits13_iff]
    exact ⟨ds, suf, rfl, h1, h2, h3⟩
  · rintro ⟨s, t, rfl, hm⟩
    obtain ⟨ds, r, rfl, h1, h2, h3⟩ := (matchDigits13_iff t).mp hm
    exact ⟨s, ds, r, by simp, h1, h2, h3⟩

/-- Claim C2: for every item name, `is_chapter` returns true iff the
lowercased name contains the substring "chapter", or an occurrence of "part"
immediately followed by 1-3 digits, or an occurrence of "ch" immediately
followed by 1-3 digits; every other name — the empty one included — yields
false. -/
theorem is_chapter_iff_spec (c : Item) : is_chapter c = true ↔ specIsChapter c.name := by
  have hif : ∀ a b d : Bool,
      (if a = true then true else if b = true then true else if d = true then true else false)
        = (a || b || d) := by decide
  unfold is_chapter specIsChapter
  simp only []
  rw [hif]
  simp only [Bool.or_eq_true]
  rw [searchTokDigits_iff, searchTokDigits_iff, containsSub_iff,
    ← specTokenDigits_iff, ← specTokenDigits_iff]
  constructor
  · rintro ((h | h) | h)
    · exact Or.inr (Or.inl h)
    · exact Or.inr (Or.inr h)
    · exact Or.inl h
  · rintro (h | h | h)
    · exact Or.inr h
    · exact Or.inl (Or.inl h)
    · exact Or.inl (Or.inr h)

end Audiblez
